import Mathlib

/-!
Verification of the `queue` package: a durable FIFO work queue backed by a
SQLite table

    CREATE TABLE IF NOT EXISTS queue (
        id INTEGER PRIMARY KEY AUTOINCREMENT,
        data BLOB NOT NULL
    );

with Store API operations `Add`, `Get`, `Delete` serialized by a mutex, and a
background dispatch loop `process` that peeks one item at a time and hands it
to the registered listener callback.

The embedding models the state of one storage target as the list of
still-present rows in b-tree scan order (SQLite walks a rowid table in
ascending id order) together with the AUTOINCREMENT sequence value, and
models `process` as a step function over an environment schedule describing
cancellation, external `Add` calls, fetch failures and the callback's
behavior.
-/

/-- One row of the `queue` table, mirroring Go's `Item{ID int; Data []byte}`.
SQLite assigns row ids starting at 1, so `ID` is a natural number; the payload
is a list of bytes. -/
structure Item where
  ID : Nat
  Data : List Nat
deriving Repr, DecidableEq

/-- State of one storage target: the still-present rows of the `queue` table in
ascending-rowid (b-tree scan) order, plus the AUTOINCREMENT sequence value,
i.e. the largest id ever assigned.  The `AUTOINCREMENT` keyword makes SQLite
record this in `sqlite_sequence` and never reuse an id. -/
structure QueueState where
  rows : List Item
  seq : Nat
deriving Repr, DecidableEq

/-- A freshly created storage target, right after `CREATE TABLE IF NOT EXISTS`:
no rows, no id ever assigned. -/
def QueueState.new : QueueState := ⟨[], 0⟩

/-- `Add(data)`: `INSERT INTO queue(data) VALUES (?)`.  AUTOINCREMENT assigns
the next id `seq + 1` and the row goes to the b-tree position of its id, i.e.
the tail of the scan order. -/
def QueueState.add (s : QueueState) (data : List Nat) : QueueState :=
  ⟨s.rows ++ [⟨s.seq + 1, data⟩], s.seq + 1⟩

/-- SQLite `LIMIT ?` with a bound integer parameter: a negative limit means
"no upper bound" (per SQLite's documented LIMIT semantics), otherwise at most
`l` rows of the scan are returned. -/
def sqlLimit (l : Int) (xs : List Item) : List Item :=
  if l < 0 then xs else xs.take l.toNat

/-- `Get(limit)`: `SELECT id, data FROM queue LIMIT ?`.  The statement has no
ORDER BY, and SQLite's full scan of a rowid table walks the b-tree in
ascending id order, which is exactly the order `rows` stores.  A SELECT
mutates nothing, so the state comes back unchanged. -/
def QueueState.get (s : QueueState) (limit : Int) : List Item × QueueState :=
  (sqlLimit limit s.rows, s)

/-- `Delete(id)`: `DELETE FROM queue WHERE id = ?` removes the matching row if
present and is a no-op otherwise. -/
def QueueState.delete (s : QueueState) (id : Nat) : QueueState :=
  ⟨s.rows.filter (fun it => it.ID != id), s.seq⟩

/-- Go's `Delete` returns whatever error `db.Exec` produced; on a healthy
adapter a DELETE statement succeeds whether or not any row matches, so the
returned error is `none`. -/
def deleteResult (s : QueueState) (id : Nat) : QueueState × Option String :=
  (s.delete id, none)

/-- Result of decoding one row inside `Get`'s `rows.Next()` loop: either the
scanned item or the error `rows.Scan` returned. -/
inductive ScanRes where
  | ok (it : Item)
  | err (e : String)
deriving Repr, DecidableEq

/-- The `for rows.Next()` loop of `Get`: scanned items are accumulated into
`items`; the first scan error makes `Get` return `nil, err`, dropping the
accumulator. -/
def getScan : List ScanRes → List Item → List Item × Option String
  | [], items => (items, none)
  | .err e :: _, _ => ([], some e)
  | .ok it :: rest, items => getScan rest (items ++ [it])

/-- `Get`'s returned pair as a function of the adapter's reply: `db.Query` may
itself fail (then `Get` returns `nil, err`), otherwise the produced rows are
scanned one by one. -/
def getFromRows (rows : Except String (List ScanRes)) : List Item × Option String :=
  match rows with
  | .error e => ([], some e)
  | .ok rs => getScan rs []

/-- One externally visible Store API call, as serialized by the engine's
mutex. -/
inductive Op where
  | add (data : List Nat)
  | get (limit : Int)
  | delete (id : Nat)
deriving Repr, DecidableEq

/-- Effect of one Store API call on the storage state. -/
def applyOp (s : QueueState) : Op → QueueState
  | .add d => s.add d
  | .get l => (s.get l).2
  | .delete i => s.delete i

/-- Effect of a sequence of Store API calls, oldest first. -/
def applyOps (s : QueueState) (ops : List Op) : QueueState :=
  ops.foldl applyOp s

/-- A run of `Add` calls with the given payloads, in order. -/
def addAll (s : QueueState) (ps : List (List Nat)) : QueueState :=
  ps.foldl QueueState.add s

/-- The rows that `Add`ing payloads `ps` appends when the sequence value is
`base`: ids `base+1, base+2, ...` paired with the payloads in order. -/
def expectedItems (base : Nat) : List (List Nat) → List Item
  | [] => []
  | p :: rest => ⟨base + 1, p⟩ :: expectedItems (base + 1) rest

/-- Storage invariant maintained by every operation: each row id lies in
`[1, seq]` and ids strictly increase along the scan order (so no two rows
share an id). -/
def StoreInv (s : QueueState) : Prop :=
  (∀ it ∈ s.rows, 1 ≤ it.ID ∧ it.ID ≤ s.seq) ∧
  s.rows.Pairwise (fun a b => a.ID < b.ID)

instance (s : QueueState) : Decidable (StoreInv s) := by
  unfold StoreInv; infer_instance

/-- A small concrete state used by the witnesses: payloads `[1]`, `[2]`, `[3]`
added to a fresh target. -/
def demoState : QueueState := addAll QueueState.new [[1], [2], [3]]

/-- Go `Config{LocalFile string; Reset bool}`. -/
structure Config where
  LocalFile : String
  Reset : Bool
deriving Repr, DecidableEq

/-- Go `strings.HasPrefix(s, pre)`, computed over the character lists:
`listStarts pre.data s.data` is `true` iff `s` starts with `pre`. -/
def listStarts : List Char → List Char → Bool
  | [], _ => true
  | _ :: _, [] => false
  | a :: as, b :: bs => a == b && listStarts as bs

/-- `strings.HasPrefix(s, pre)`. -/
def strStarts (s pre : String) : Bool := listStarts pre.data s.data

/-- `sub` occurs contiguously somewhere in the character list. -/
def listHasSub (sub : List Char) : List Char → Bool
  | [] => listStarts sub []
  | c :: rest => listStarts sub (c :: rest) || listHasSub sub rest

/-- `sub` occurs contiguously somewhere in `s`. -/
def strHasSub (s sub : String) : Bool := listHasSub sub.data s.data

/-- `getNextLocalFile` after the global counter was bumped to `counter`:
`fmt.Sprintf("file:memdb%d?mode=memory&cache=shared", counter)`. -/
def getNextLocalFile (counter : Nat) : String :=
  "file:memdb" ++ toString counter ++ "?mode=memory&cache=shared"

/-- `configDefault`: with no config supplied, a fresh in-memory locator and
`Reset = false`; otherwise the supplied config, with an empty `LocalFile`
replaced by the fresh in-memory locator.  `counter` is the value the global
counter reaches for this call. -/
def configDefault (counter : Nat) (config : List Config) : Config :=
  let defaultValue : Config := ⟨getNextLocalFile counter, false⟩
  match config with
  | [] => defaultValue
  | cfg :: _ =>
    if cfg.LocalFile = "" then ⟨defaultValue.LocalFile, cfg.Reset⟩ else cfg

/-- `New`'s in-memory test:
`strings.HasPrefix(cfg.LocalFile, "file::memory_")`. -/
def inMemoryFlag (cfg : Config) : Bool := strStarts cfg.LocalFile "file::memory_"

/-- `New` reaches `os.Remove(cfg.LocalFile)` (the reset purge) exactly when
`cfg.Reset && !inMemory`. -/
def purgeAttempted (cfg : Config) : Bool := cfg.Reset && !(inMemoryFlag cfg)

/-- A locator names a transient in-memory SQLite target when its URI carries
`mode=memory` — what the spec calls a transient/in-memory target. -/
def isMemoryTarget (localFile : String) : Bool := strHasSub localFile "mode=memory"

/-- Observable actions of one `process` iteration. -/
inductive Ev where
  | shutdown
  | fetchErr
  | deliver (it : Item)
  | sleep (d : Int)
  | idle
  | recovered
deriving Repr, DecidableEq

/-- What the registered callback does when invoked: the ids it passes to
`Delete` while running, the durations it passes to the delay setter `broken`
(in call order), and whether it ends by raising a panic instead of
returning. -/
structure CbBehavior where
  deletes : List Nat
  delayCalls : List Int
  panics : Bool
deriving Repr, DecidableEq

/-- `var delay time.Duration` starts at zero; each `broken(sec)` call
overwrites it; `process` reads the final value after the callback returns.
Durations are `time.Duration`, i.e. signed integers. -/
def finalDelay (calls : List Int) : Int := calls.foldl (fun _ d => d) 0

/-- Environment of one `process` iteration: whether `ctx.Done()` fires at the
`select`, the payloads that external `Add` calls enqueue before this
iteration's fetch, whether the internal `Get(1)` fails, and the behavior of
the currently registered listener. -/
structure IterEnv where
  cancelled : Bool
  adds : List (List Nat)
  fetchFails : Bool
  cb : CbBehavior
deriving Repr, DecidableEq

/-- The `Delete` calls the callback issues, applied in order. -/
def applyDeletes (s : QueueState) (ids : List Nat) : QueueState :=
  ids.foldl QueueState.delete s

/-- One iteration of `process`: check cancellation; fetch with `Get(1)` (on
failure log and continue); with no item sleep the fixed idle interval; with an
item invoke the callback and then sleep the requested delay if positive.  A
panic inside the callback is caught by the deferred `recover`, logged, and
`process` is re-entered from the top, which is observationally the same as
continuing the loop with fresh per-iteration state.  Returns the new storage
state, the emitted events, and whether the loop goes on. -/
def procIter (s : QueueState) (e : IterEnv) : QueueState × List Ev × Bool :=
  if e.cancelled then (s, [.shutdown], false)
  else
    let s1 := addAll s e.adds
    if e.fetchFails then (s1, [.fetchErr], true)
    else
      match (s1.get 1).1 with
      | [] => (s1, [.idle], true)
      | item :: _ =>
        let s2 := applyDeletes s1 e.cb.deletes
        if e.cb.panics then (s2, [.deliver item, .recovered], true)
        else
          let d := finalDelay e.cb.delayCalls
          (s2, .deliver item :: (if 0 < d then [.sleep d] else []), true)

/-- `process` run under a finite schedule of iteration environments. -/
def procRun (s : QueueState) : List IterEnv → QueueState × List Ev
  | [] => (s, [])
  | e :: rest =>
    let r := procIter s e
    if r.2.2 then
      let r2 := procRun r.1 rest
      (r2.1, r.2.1 ++ r2.2)
    else (r.1, r.2.1)

theorem addAll_cons (s : QueueState) (p : List Nat) (rest : List (List Nat)) :
    addAll s (p :: rest) = addAll (s.add p) rest := rfl

theorem addAll_rows (ps : List (List Nat)) : ∀ s : QueueState,
    (addAll s ps).rows = s.rows ++ expectedItems s.seq ps := by
  induction ps with
  | nil => intro s; simp [addAll, expectedItems]
  | cons p rest ih =>
    intro s
    rw [addAll_cons, ih]
    simp [QueueState.add, expectedItems]

theorem addAll_seq (ps : List (List Nat)) : ∀ s : QueueState,
    (addAll s ps).seq = s.seq + ps.length := by
  induction ps with
  | nil => intro s; simp [addAll]
  | cons p rest ih =>
    intro s
    rw [addAll_cons, ih]
    simp [QueueState.add]
    omega

theorem expectedItems_length (ps : List (List Nat)) :
    ∀ b, (expectedItems b ps).length = ps.length := by
  induction ps with
  | nil => intro b; rfl
  | cons p rest ih => intro b; simp [expectedItems, ih]

theorem storeInv_add (s : QueueState) (d : List Nat) (h : StoreInv s) :
    StoreInv (s.add d) := by
  obtain ⟨hb, hp⟩ := h
  constructor
  · intro it hit
    simp only [QueueState.add, List.mem_append, List.mem_singleton] at hit ⊢
    rcases hit with hit | hit
    · have := hb it hit; omega
    · subst hit; simp
  · refine List.pairwise_append.mpr ⟨hp, List.pairwise_singleton .., ?_⟩
    intro a ha b hb'
    simp only [List.mem_singleton] at hb'
    subst hb'
    have := hb a ha
    simp
    omega

theorem storeInv_delete (s : QueueState) (id : Nat) (h : StoreInv s) :
    StoreInv (s.delete id) := by
  obtain ⟨hb, hp⟩ := h
  constructor
  · intro it hit
    simp only [QueueState.delete, List.mem_filter] at hit
    exact hb it hit.1
  · exact hp.filter _

theorem storeInv_applyOp (s : QueueState) (o : Op) (h : StoreInv s) :
    StoreInv (applyOp s o) := by
  cases o with
  | add d => exact storeInv_add s d h
  | get l => exact h
  | delete i => exact storeInv_delete s i h

theorem storeInv_applyOps (s : QueueState) (ops : List Op) (h : StoreInv s) :
    StoreInv (applyOps s ops) := by
  induction ops generalizing s with
  | nil => exact h
  | cons o rest ih => exact ih (applyOp s o) (storeInv_applyOp s o h)

theorem absent_applyOp (s : QueueState) (id : Nat) (o : Op)
    (h1 : id ∉ s.rows.map Item.ID) (h2 : id ≤ s.seq) :
    id ∉ (applyOp s o).rows.map Item.ID ∧ id ≤ (applyOp s o).seq := by
  cases o with
  | add d =>
    refine ⟨?_, by simp [applyOp, QueueState.add]; omega⟩
    simp only [applyOp, QueueState.add, List.map_append, List.mem_append] at *
    rintro (h | h)
    · exact h1 h
    · simp at h; omega
  | get l => exact ⟨h1, h2⟩
  | delete i =>
    refine ⟨?_, h2⟩
    intro h
    simp only [applyOp, QueueState.delete, List.mem_map, List.mem_filter] at h
    obtain ⟨it, ⟨hmem, _⟩, hid⟩ := h
    exact h1 (List.mem_map.mpr ⟨it, hmem, hid⟩)

theorem absent_applyOps (s : QueueState) (id : Nat) (ops : List Op)
    (h1 : id ∉ s.rows.map Item.ID) (h2 : id ≤ s.seq) :
    id ∉ (applyOps s ops).rows.map Item.ID := by
  induction ops generalizing s with
  | nil => exact h1
  | cons o rest ih =>
    obtain ⟨h1', h2'⟩ := absent_applyOp s id o h1 h2
    exact ih (applyOp s o) h1' h2'

theorem delete_removes (s : QueueState) (id : Nat) :
    id ∉ (s.delete id).rows.map Item.ID := by
  intro h
  simp only [QueueState.delete, List.mem_map, List.mem_filter] at h
  obtain ⟨it, ⟨_, hne⟩, hid⟩ := h
  simp [hid] at hne

theorem procIter_cont (s : QueueState) (e : IterEnv) (h : e.cancelled = false) :
    (procIter s e).2.2 = true := by
  simp only [procIter, h, Bool.false_eq_true, if_false]
  split
  · rfl
  · split
    · rfl
    · split <;> rfl

theorem procRun_single (s : QueueState) (e : IterEnv) :
    procRun s [e] = ((procIter s e).1, (procIter s e).2.1) := by
  simp [procRun]

theorem procRun_cons (s : QueueState) (e : IterEnv) (rest : List IterEnv)
    (h : (procIter s e).2.2 = true) :
    procRun s (e :: rest) =
      ((procRun (procIter s e).1 rest).1,
        (procIter s e).2.1 ++ (procRun (procIter s e).1 rest).2) := by
  simp [procRun, h]

/-- C4: `Get` is a pure peek: the queue state after `Get` equals the state
before, and two consecutive `Get(k)` calls with no intervening `Delete` or
`Add` return identical results. -/
theorem get_is_peek (s : QueueState) (k : Int) :
    (s.get k).2 = s ∧ (((s.get k).2).get k).1 = (s.get k).1 :=
  ⟨rfl, rfl⟩

/-- C7: `Delete` is idempotent: deleting an id absent from the queue (never
assigned, or already deleted) returns no error and leaves the state
unchanged. -/
theorem delete_idempotent (s : QueueState) (id : Nat)
    (habs : id ∉ s.rows.map Item.ID) :
    deleteResult s id = (s, none) := by
  have hrows : s.rows.filter (fun it => it.ID != id) = s.rows := by
    apply List.filter_eq_self.mpr
    intro it hit
    simp only [bne_iff_ne, ne_eq]
    intro hcontra
    exact habs (List.mem_map.mpr ⟨it, hit, hcontra⟩)
  show (QueueState.delete s id, none) = (s, none)
  unfold QueueState.delete
  rw [hrows]

/-- Witness for C7 at a concrete input: id 7 was never assigned in
`demoState`, so deleting it errors not and changes nothing. -/
theorem delete_idempotent_witness : deleteResult demoState 7 = (demoState, none) :=
  delete_idempotent demoState 7 (by decide)

/-- C9: `Get` with a non-positive limit is well defined and errors not:
`Get(0)` returns the empty sequence, and any negative limit returns every
still-present item, because the limit is passed through to SQLite's LIMIT,
which treats negative values as unlimited. -/
theorem get_nonpositive_limit (s : QueueState) :
    (s.get 0).1 = [] ∧ ∀ n : Int, n < 0 → (s.get n).1 = s.rows := by
  constructor
  · simp [QueueState.get, sqlLimit]
  · intro n hn
    simp [QueueState.get, sqlLimit, hn]

/-- Witness for C9 at a concrete input: `Get(0)` on `demoState` is empty and
`Get(-1)` returns all three rows. -/
theorem get_nonpositive_limit_witness :
    (demoState.get 0).1 = [] ∧ (demoState.get (-1)).1 = demoState.rows :=
  ⟨(get_nonpositive_limit demoState).1,
    (get_nonpositive_limit demoState).2 (-1) (by decide)⟩

/-- C2 (code bug in `New`): the default-generated locator is an in-memory
SQLite URI (it carries `mode=memory`), yet `New`'s in-memory test — prefix
`file::memory_` — rejects it, so a `Reset` request reaches the `os.Remove`
purge for it instead of being skipped. -/
theorem reset_purge_not_skipped_for_default_memory_locator :
    isMemoryTarget (configDefault 1 [⟨"", true⟩]).LocalFile = true ∧
    inMemoryFlag (configDefault 1 [⟨"", true⟩]) = false ∧
    purgeAttempted (configDefault 1 [⟨"", true⟩]) = true := by
  decide

theorem getScan_err (rs : List ScanRes) :
    ∀ acc e, (getScan rs acc).2 = some e → (getScan rs acc).1 = [] := by
  induction rs with
  | nil => intro acc e h; simp [getScan] at h
  | cons r rest ih =>
    intro acc e h
    cases r with
    | ok it => exact ih (acc ++ [it]) e h
    | err msg => rfl

/-- C10: `Get` never returns partial results alongside an error: whenever the
returned error is non-nil (query failure or any row's scan failure), the
returned item sequence is nil, dropping anything already collected. -/
theorem get_no_partial_on_error (rows : Except String (List ScanRes)) (e : String)
    (h : (getFromRows rows).2 = some e) :
    (getFromRows rows).1 = [] := by
  cases rows with
  | error msg => rfl
  | ok rs => exact getScan_err rs [] e h

/-- Witness for C10 at a concrete input: a scan error on the second row makes
`Get` drop the already-collected first item and return `nil` with the
error. -/
theorem get_no_partial_on_error_witness :
    (getFromRows (.ok [.ok ⟨1, [7]⟩, .err "boom"])).1 = [] :=
  get_no_partial_on_error (.ok [.ok ⟨1, [7]⟩, .err "boom"]) "boom" rfl

theorem sqlLimit_sublist (l : Int) (xs : List Item) : (sqlLimit l xs).Sublist xs := by
  unfold sqlLimit
  split
  · exact List.Sublist.refl _
  · exact List.take_sublist _ _

/-- C1: `Get(limit)` returns the oldest up to `limit` still-present items in
ascending id order: under the storage invariant the result is the leading `k`
rows of the scan, of length at most `k` and with strictly ascending ids; and
for payloads p1..pn added in order to a fresh target with no intervening
deletes, `Get(n)` returns exactly those items with ascending assigned ids
`1..n`. -/
theorem get_oldest_ascending_fifo :
    (∀ (s : QueueState) (k : Nat), StoreInv s →
      (s.get (Int.ofNat k)).1 = s.rows.take k ∧
      (s.get (Int.ofNat k)).1.length ≤ k ∧
      List.Pairwise (fun a b => a.ID < b.ID) (s.get (Int.ofNat k)).1) ∧
    (∀ ps : List (List Nat),
      ((addAll QueueState.new ps).get (Int.ofNat ps.length)).1 = expectedItems 0 ps) := by
  constructor
  · intro s k hinv
    have hneg : ¬ (Int.ofNat k < 0) := not_lt.mpr (Int.natCast_nonneg k)
    have htake : (s.get (Int.ofNat k)).1 = s.rows.take k := by
      simp [QueueState.get, sqlLimit, hneg]
    refine ⟨htake, ?_, ?_⟩
    · rw [htake, List.length_take]
      exact min_le_left _ _
    · rw [htake]
      exact List.Pairwise.sublist (List.take_sublist _ _) hinv.2
  · intro ps
    have hrows : (addAll QueueState.new ps).rows = expectedItems 0 ps := by
      simpa [QueueState.new] using addAll_rows ps QueueState.new
    have hneg : ¬ (Int.ofNat ps.length < 0) := not_lt.mpr (Int.natCast_nonneg ps.length)
    have hlen : (expectedItems 0 ps).length = ps.length := expectedItems_length ps 0
    simp only [QueueState.get, sqlLimit, hneg, if_false, hrows, Int.toNat_ofNat]
    rw [← hlen]
    exact List.take_length _

/-- Witness for C1 at concrete inputs: `Get(2)` on `demoState`, and the FIFO
scenario with two payloads added to a fresh target. -/
theorem get_oldest_ascending_fifo_witness :
    ((demoState.get (Int.ofNat 2)).1 = demoState.rows.take 2 ∧
      (demoState.get (Int.ofNat 2)).1.length ≤ 2 ∧
      List.Pairwise (fun a b => a.ID < b.ID) (demoState.get (Int.ofNat 2)).1) ∧
    ((addAll QueueState.new [[4], [5]]).get (Int.ofNat 2)).1 = expectedItems 0 [[4], [5]] :=
  ⟨get_oldest_ascending_fifo.1 demoState 2 (by decide),
    get_oldest_ascending_fifo.2 [[4], [5]]⟩

/-- C3: deletion is final and ids are never reused: if `id` was ever assigned
on this storage target (`id ≤ seq`), then after `Delete(id)` no sequence of
further Store API calls — including `Add`s of identical payloads — ever makes
`Get` return that id again; and the id invariant (every row id in `[1, seq]`,
ids strictly increasing along the scan, hence never shared) is preserved by
every operation. -/
theorem delete_finality_ids_never_reused :
    (∀ (s : QueueState) (id : Nat) (ops : List Op) (l : Int), id ≤ s.seq →
      id ∉ ((applyOps (s.delete id) ops).get l).1.map Item.ID) ∧
    (∀ (s : QueueState) (ops : List Op), StoreInv s → StoreInv (applyOps s ops)) := by
  constructor
  · intro s id ops l hle
    have habs := absent_applyOps (s.delete id) id ops (delete_removes s id) hle
    intro hmem
    exact habs (((sqlLimit_sublist l _).map Item.ID).subset hmem)
  · intro s ops h
    exact storeInv_applyOps s ops h

/-- Witness for C3 at concrete inputs: after deleting id 2 from `demoState`,
an `Add`, a `Delete` and a `Get` never make id 2 reappear; and the invariant
survives an `Add` on `demoState`. -/
theorem delete_finality_ids_never_reused_witness :
    (2 ∉ ((applyOps (demoState.delete 2) [.add [9], .delete 1, .get 5]).get 5).1.map Item.ID) ∧
    StoreInv (applyOps demoState [.add [4]]) :=
  ⟨delete_finality_ids_never_reused.1 demoState 2 [.add [9], .delete 1, .get 5] 5 (by decide),
    delete_finality_ids_never_reused.2 demoState [.add [4]] (by decide)⟩

theorem procIter_delivers (s : QueueState) (e : IterEnv) (p : Item)
    (hc : e.cancelled = false) (hf : e.fetchFails = false) (hp : e.cb.panics = false)
    (hhead : (addAll s e.adds).rows.head? = some p) :
    Ev.deliver p ∈ (procIter s e).2.1 := by
  cases hr : (addAll s e.adds).rows with
  | nil => rw [hr] at hhead; simp at hhead
  | cons a t =>
    rw [hr] at hhead
    simp only [List.head?_cons, Option.some.injEq] at hhead
    subst hhead
    have hrows : ((addAll s e.adds).get 1).1 = a :: [] := by
      simp [QueueState.get, sqlLimit, hr]
    simp only [procIter, hc, hf, hp, Bool.false_eq_true, if_false, hrows]
    simp

/-- C5: the delay signal is honored exactly: in an iteration that delivers an
item, if the final value the callback stored through the delay setter is a
positive duration `D`, the loop sleeps exactly `D` after the callback returns
and before the next iteration; with no delay-setter call (final value 0) or a
non-positive value, no sleep is emitted and the loop proceeds at once. -/
theorem delay_honored (s : QueueState) (e : IterEnv) (it : Item) (l : List Item)
    (hc : e.cancelled = false) (hf : e.fetchFails = false)
    (hp : e.cb.panics = false)
    (hrows : ((addAll s e.adds).get 1).1 = it :: l) :
    (procIter s e).2.1 =
      .deliver it ::
        (if 0 < finalDelay e.cb.delayCalls
          then [.sleep (finalDelay e.cb.delayCalls)] else []) ∧
    finalDelay [] = 0 := by
  refine ⟨?_, rfl⟩
  simp only [procIter, hc, hf, hp, Bool.false_eq_true, if_false, hrows]

/-- Witness for C5 at a concrete input: the callback's last delay-setter call
passes 7, so the iteration delivers and then sleeps 7. -/
theorem delay_honored_witness :
    (procIter QueueState.new ⟨false, [[3]], false, ⟨[], [5, 7], false⟩⟩).2.1 =
      .deliver ⟨1, [3]⟩ ::
        (if 0 < finalDelay [5, 7] then [.sleep (finalDelay [5, 7])] else []) ∧
    finalDelay [] = 0 :=
  delay_honored QueueState.new ⟨false, [[3]], false, ⟨[], [5, 7], false⟩⟩ ⟨1, [3]⟩ []
    rfl rfl rfl (by decide)

/-- C6: a fault raised in the callback is caught by the deferred recover: the
loop neither terminates nor emits a shutdown (the fault reaches no caller and
the engine stays open), and whatever item heads the queue when the next
healthy iteration fetches — in particular one added after the faulting
invocation — is delivered to the callback. -/
theorem fault_recovery_isolation :
    (∀ (s : QueueState) (e : IterEnv), e.cancelled = false → e.cb.panics = true →
      (procIter s e).2.2 = true ∧ Ev.shutdown ∉ (procIter s e).2.1) ∧
    (∀ (s : QueueState) (e1 e2 : IterEnv) (p : Item),
      e1.cancelled = false → e1.cb.panics = true →
      e2.cancelled = false → e2.fetchFails = false → e2.cb.panics = false →
      (addAll (procRun s [e1]).1 e2.adds).rows.head? = some p →
      Ev.deliver p ∈ (procRun s [e1, e2]).2) := by
  constructor
  · intro s e hc hpanic
    refine ⟨procIter_cont s e hc, ?_⟩
    simp only [procIter, hc, hpanic, Bool.false_eq_true, if_false]
    split
    · simp
    · split
      · simp
      · simp
  · intro s e1 e2 p h1c h1p h2c h2f h2p hhead
    have hcont1 : (procIter s e1).2.2 = true := procIter_cont s e1 h1c
    rw [procRun_cons s e1 [e2] hcont1]
    rw [procRun_single] at hhead ⊢
    refine List.mem_append.mpr (Or.inr ?_)
    exact procIter_delivers (procIter s e1).1 e2 p h2c h2f h2p hhead

/-- Witness for C6 at concrete inputs: the callback deletes item 1 and then
panics; the loop continues, and the item added afterwards (fresh id 2) is
delivered by the next iteration. -/
theorem fault_recovery_isolation_witness :
    ((procIter QueueState.new ⟨false, [[1]], false, ⟨[], [], true⟩⟩).2.2 = true ∧
      Ev.shutdown ∉ (procIter QueueState.new ⟨false, [[1]], false, ⟨[], [], true⟩⟩).2.1) ∧
    Ev.deliver ⟨2, [6]⟩ ∈
      (procRun QueueState.new
        [⟨false, [[5]], false, ⟨[1], [], true⟩⟩,
          ⟨false, [[6]], false, ⟨[], [], false⟩⟩]).2 :=
  ⟨fault_recovery_isolation.1 QueueState.new ⟨false, [[1]], false, ⟨[], [], true⟩⟩ rfl rfl,
    fault_recovery_isolation.2 QueueState.new
      ⟨false, [[5]], false, ⟨[1], [], true⟩⟩
      ⟨false, [[6]], false, ⟨[], [], false⟩⟩ ⟨2, [6]⟩ rfl rfl rfl rfl rfl (by decide)⟩

theorem procIter_fixed (s : QueueState) (e : IterEnv) (it : Item)
    (hc : e.cancelled = false) (hf : e.fetchFails = false) (hp : e.cb.panics = false)
    (hdel : e.cb.deletes = []) (hadds : e.adds = [])
    (hrows : (s.get 1).1 = [it]) :
    procIter s e =
      (s, Ev.deliver it ::
        (if 0 < finalDelay e.cb.delayCalls
          then [.sleep (finalDelay e.cb.delayCalls)] else []), true) := by
  simp only [procIter, hc, hf, hp, hdel, hadds, Bool.false_eq_true, if_false,
    addAll, applyDeletes, List.foldl_nil, hrows]

/-- C8: the dispatch loop never deletes on its own: an iteration in which the
callback issues no `Delete` (and no external call interleaves) leaves the
storage state unchanged whatever else happens, so an unacknowledged head item
is delivered again by the next iteration — at-least-once,
manual-acknowledgment delivery. -/
theorem loop_never_deletes_redelivers :
    (∀ (s : QueueState) (e : IterEnv), e.cb.deletes = [] → e.adds = [] →
      (procIter s e).1 = s) ∧
    (∀ (s : QueueState) (e : IterEnv) (it : Item),
      e.cancelled = false → e.fetchFails = false → e.cb.panics = false →
      e.cb.deletes = [] → e.adds = [] → (s.get 1).1 = [it] →
      (procRun s [e, e]).2.count (Ev.deliver it) = 2 ∧ (procRun s [e, e]).1 = s) := by
  constructor
  · intro s e hdel hadds
    simp only [procIter, hdel, hadds, addAll, applyDeletes, List.foldl_nil]
    split
    · rfl
    · split
      · rfl
      · split
        · rfl
        · split <;> rfl
  · intro s e it hc hf hp hdel hadds hrows
    have hone := procIter_fixed s e it hc hf hp hdel hadds hrows
    have hcont : (procIter s e).2.2 = true := by rw [hone]
    have hst : (procIter s e).1 = s := by rw [hone]
    have hrun : procRun s [e, e] =
        (s, (procIter s e).2.1 ++ (procIter s e).2.1) := by
      rw [procRun_cons s e [e] hcont]
      rw [procRun_single]
      simp [hst]
    rw [hrun, hone]
    constructor
    · simp only [List.count_append, List.count_cons_self]
      have hzero : Ev.deliver it ∉
          (if 0 < finalDelay e.cb.delayCalls
            then [Ev.sleep (finalDelay e.cb.delayCalls)] else []) := by
        split <;> simp
      rw [List.count_eq_zero.mpr hzero]
    · rfl

/-- Witness for C8 at concrete inputs: with a callback that acknowledges
nothing, the single item of the queue is delivered by both iterations and the
queue is unchanged. -/
theorem loop_never_deletes_redelivers_witness :
    (procIter demoState ⟨false, [], false, ⟨[], [], false⟩⟩).1 = demoState ∧
    ((procRun (addAll QueueState.new [[9]])
        [⟨false, [], false, ⟨[], [], false⟩⟩,
          ⟨false, [], false, ⟨[], [], false⟩⟩]).2.count (Ev.deliver ⟨1, [9]⟩) = 2 ∧
      (procRun (addAll QueueState.new [[9]])
        [⟨false, [], false, ⟨[], [], false⟩⟩,
          ⟨false, [], false, ⟨[], [], false⟩⟩]).1 = addAll QueueState.new [[9]]) :=
  ⟨loop_never_deletes_redelivers.1 demoState ⟨false, [], false, ⟨[], [], false⟩⟩ rfl rfl,
    loop_never_deletes_redelivers.2 (addAll QueueState.new [[9]])
      ⟨false, [], false, ⟨[], [], false⟩⟩ ⟨1, [9]⟩ rfl rfl rfl rfl rfl (by decide)⟩
